import Mathlib

/-!
Verification development for the NASA OPERA QGIS plugin repository.

The only algorithmic component of the repository is the multi-CRS virtual
mosaic builder in `nasa_opera/dialogs/opera_dock.py` (method
`_display_mosaic`) together with the URL translation helper
`get_vsicurl_path`.  This file gives a shallow embedding of that code:

* Python strings are modelled as Lean `String` (a structure over
  `List Char`); slicing, splitting, joining, `replace`, `lower`, and
  `os.path.basename` are modelled by structurally recursive functions
  over the underlying character lists, each faithful to the CPython
  semantics of the corresponding operation on the concrete arguments
  appearing in the source.
* The two regular expressions of the source
  (band extraction: `_(B\d+_[A-Za-z0-9]+)\.tif$` with IGNORECASE;
  zone extraction: `(UTM zone \d+[NS]?)` with IGNORECASE)
  are compiled by hand into deterministic matchers.  Both patterns are
  backtracking-free because every quantified character class is disjoint
  from the literal that follows it, so a leftmost scan with maximal
  character-class runs implements `re.search` exactly.  `$` is modelled
  with the CPython semantics: end of string, or just before a final
  newline.  The class `\d` is modelled as the ASCII digits (OPERA
  filenames are ASCII).
* External collaborators (GDAL `Open`, `BuildVRT`, QGIS layer validity,
  extent reprojection) are modelled as function-valued parameters
  (deterministic oracles), as the spec treats them as collaborators.
* Floating point rectangle arithmetic is modelled over the exact
  rationals.
-/

namespace NasaOpera

/-! ## Character list helpers modelling Python string primitives -/

/-- Models Python `str.replace(".tif", "")`: removes every leftmost,
non-overlapping occurrence of the four characters `.tif` (case sensitive),
scanning left to right.  Used by the band-matcher fallback in
`_display_mosaic` (opera_dock.py line 1065). -/
def pyReplaceTif : List Char → List Char
  | '.' :: 't' :: 'i' :: 'f' :: rest => pyReplaceTif rest
  | c :: cs => c :: pyReplaceTif cs
  | [] => []

/-- Models Python `str.split("_")` (single character separator):
splitting on every occurrence, keeping empty segments, never returning
an empty list. -/
def pySplitChar (sep : Char) : List Char → List (List Char)
  | [] => [[]]
  | c :: cs =>
    if c = sep then [] :: pySplitChar sep cs
    else
      match pySplitChar sep cs with
      | h :: t => (c :: h) :: t
      | [] => [[c]]

/-- Models Python `sep.join(parts)`. -/
def pyJoin (sep : String) : List String → String
  | [] => ""
  | a :: as => as.foldl (fun acc x => acc ++ sep ++ x) a

/-- Inverse view of `pySplitChar`: rebuilds the original list by
interleaving the separator. -/
def joinParts (sep : Char) : List (List Char) → List Char
  | [] => []
  | [p] => p
  | p :: ps => p ++ sep :: joinParts sep ps

/-- Models Python string slicing `s[:n]` (by code points). -/
def pyTake (n : Nat) (s : String) : String := String.mk (s.data.take n)

/-- Models Python `str.lower` restricted to the ASCII range used by the
source (GDAL paths and OPERA file names are ASCII). -/
def lowerChars (l : List Char) : List Char := l.map Char.toLower

/-- Boolean substring containment on character lists, modelling the
Python expression `needle in hay` on strings. -/
def listContains : List Char → List Char → Bool
  | hay, needle =>
    needle.isPrefixOf hay ||
      match hay with
      | [] => false
      | _ :: t => listContains t needle

/-- Models Python `url.startswith(p)`. -/
def strStartsWith (s p : String) : Bool := p.data.isPrefixOf s.data

/-- Models `os.path.basename` (POSIX): the part of the string after the
last slash. -/
def pyBasename (s : String) : String :=
  String.mk ((s.data.reverse.takeWhile (fun c => c ≠ '/')).reverse)

/-- Takes a maximal non-empty run of characters satisfying `p`; fails if
the first character does not satisfy `p`.  Implements a regex `X+` for a
character class `X` that is disjoint from the literal following it. -/
def takeWhile1 (p : Char → Bool) (l : List Char) : Option (List Char × List Char) :=
  match l with
  | [] => none
  | c :: cs => if p c then some (c :: cs.takeWhile p, cs.dropWhile p) else none

/-! ## Band matcher (opera_dock.py lines 1060-1069) -/

/-- Models the tail `\.tif$` of the band pattern under `re.IGNORECASE`,
with the CPython semantics of `$` (end of string, or just before one
final newline). -/
def matchTifEnd (l : List Char) : Bool :=
  match l with
  | '.' :: t :: i :: f :: [] =>
    t.toLower == 't' && i.toLower == 'i' && f.toLower == 'f'
  | '.' :: t :: i :: f :: c :: [] =>
    t.toLower == 't' && i.toLower == 'i' && f.toLower == 'f' && c == '\n'
  | _ => false

/-- Attempts to match `B\d+_[A-Za-z0-9]+\.tif$` at the head of `l`
(IGNORECASE), returning the text of the capturing group
`(B\d+_[A-Za-z0-9]+)` in its original case. -/
def matchGroupAt (l : List Char) : Option (List Char) :=
  match l with
  | [] => none
  | b :: rest =>
    if b == 'B' || b == 'b' then
      match takeWhile1 Char.isDigit rest with
      | none => none
      | some (digits, rest2) =>
        match rest2 with
        | '_' :: rest3 =>
          match takeWhile1 Char.isAlphanum rest3 with
          | none => none
          | some (alnums, rest4) =>
            if matchTifEnd rest4 then some (b :: (digits ++ '_' :: alnums))
            else none
        | _ => none
    else none

/-- Leftmost search for `_(B\d+_[A-Za-z0-9]+)\.tif$`: scans for an
underscore and tries the anchored remainder there, exactly as
`re.search` enumerates candidate start positions left to right. -/
def searchUnderscore : List Char → Option (List Char)
  | [] => none
  | c :: rest =>
    if c == '_' then
      match matchGroupAt rest with
      | some g => some g
      | none => searchUnderscore rest
    else searchUnderscore rest

/-- Models `re.search(r"_(B\d+_[A-Za-z0-9]+)\.tif$", s, re.IGNORECASE)`,
returning the text of group 1 on success (opera_dock.py line 1060). -/
def bandRegexSearch (s : String) : Option String :=
  (searchUnderscore s.data).map String.mk

/-- The band matcher of `_display_mosaic` (opera_dock.py lines
1060-1069): the captured group of the band pattern when it matches,
otherwise the join of the last two underscore-separated parts of the
filename after removing every occurrence of `.tif`, or the single
remaining part when fewer than two exist. -/
def bandMatcher (layer_filename : String) : String :=
  match bandRegexSearch layer_filename with
  | some tok => tok
  | none =>
    let parts := (pySplitChar '_' (pyReplaceTif layer_filename.data)).map String.mk
    if parts.length ≥ 2 then
      pyJoin "_" (parts.drop (parts.length - 2))
    else
      match parts.getLast? with
      | some p => p
      | none => layer_filename

/-! ## URL translation (opera_dock.py lines 365-383) -/

/-- Translation of `get_vsicurl_path`: S3 URLs go to `/vsis3/`, HTTP(S)
URLs go to `/vsicurl/`, anything else is returned unchanged. -/
def get_vsicurl_path (url : String) : String :=
  if strStartsWith url "s3://" then "/vsis3/" ++ String.mk (url.data.drop 5)
  else if strStartsWith url "https://" then "/vsicurl/" ++ url
  else if strStartsWith url "http://" then "/vsicurl/" ++ url
  else url

/-! ## CRS resolver and grouper (opera_dock.py lines 1103-1208)

The granule scan of `_display_mosaic`: for each selected granule, find
the first data link matching the band token, open it through GDAL to
read its CRS, and group the access path by a CRS identity key.  GDAL is
modelled by a deterministic oracle `o : String → Option CrsInfo`
mapping an access path to the metadata of the opened dataset, with
`none` standing for both failure modes of the source (`gdal.Open`
returning `None`, or raising). -/

/-- Metadata extracted from a successfully opened dataset:
`proj` models `ds.GetProjection()` (the raw WKT), `name` models
`srs.GetName()` (empty string standing for a falsy result), `epsg`
models `srs.GetAuthorityCode(None)` (`none` for `None`). -/
structure CrsInfo where
  proj : String
  name : String
  epsg : Option String
deriving DecidableEq

/-- One value of the `files_by_crs` dictionary: the human-readable short
name fixed at creation, and the ordered access paths of the group. -/
structure GroupData where
  name : String
  paths : List String
deriving DecidableEq

/-- A selected granule: its display id (`item.text()`) and its remote
file links (`granule.data_links()`). -/
structure Granule where
  id : String
  data_links : List String
deriving DecidableEq

/-- The mutable state of the scan loop: the insertion-ordered
`files_by_crs` dictionary (modelled as an association list, matching
Python dict insertion-order semantics) and the two failure lists. -/
structure ScanState where
  files_by_crs : List (String × GroupData)
  not_found : List String
  access_failed : List String
deriving DecidableEq

/-- The link matching test of the scan loop (opera_dock.py lines
1126-1130): the lower-cased link contains `_<band>.tif` or ends with
`<band>.tif` (band lower-cased as well). -/
def linkMatches (band link : String) : Bool :=
  listContains (lowerChars link.data) (lowerChars ("_" ++ band ++ ".tif").data) ||
    List.isSuffixOf (lowerChars (band ++ ".tif").data) (lowerChars link.data)

/-- The link selection of the scan loop: the first matching link is
processed and the loop breaks; links after it are never examined. -/
def findBandLink (band : String) : List String → Option String
  | [] => none
  | link :: rest => if linkMatches band link then some link else findBandLink band rest

/-- The grouping key (opera_dock.py lines 1156-1160): `EPSG:<code>`
when `srs.GetAuthorityCode(None)` is truthy, else the first 100
characters of the raw projection WKT. -/
def crsKey (info : CrsInfo) : String :=
  match info.epsg with
  | some e => if e == "" then pyTake 100 info.proj else "EPSG:" ++ e
  | none => pyTake 100 info.proj

/-- Matches a literal pattern (given lower-cased) against the input
case-insensitively, returning the remainder on success. -/
def matchLowerLit : List Char → List Char → Option (List Char)
  | [], l => some l
  | _ :: _, [] => none
  | p :: ps, c :: cs => if c.toLower == p then matchLowerLit ps cs else none

/-- Attempts to match `UTM zone \d+[NS]?` (IGNORECASE) at the head of
`l`, returning the length of the matched text. -/
def zoneAt (l : List Char) : Option Nat :=
  match matchLowerLit "utm zone ".data l with
  | none => none
  | some rest =>
    match takeWhile1 Char.isDigit rest with
    | none => none
    | some (digits, rest2) =>
      match rest2 with
      | c :: _ =>
        if c == 'N' || c == 'S' || c == 'n' || c == 's'
        then some (9 + digits.length + 1) else some (9 + digits.length)
      | [] => some (9 + digits.length)

/-- Leftmost search for `(UTM zone \d+[NS]?)` (IGNORECASE), returning
the matched text in its original case. -/
def zoneSearch : List Char → Option (List Char)
  | [] => none
  | c :: rest =>
    match zoneAt (c :: rest) with
    | some n => some ((c :: rest).take n)
    | none => zoneSearch rest

/-- The human-readable CRS short name (opera_dock.py lines 1143-1153):
the zone substring of the display name when present, else the display
name truncated to 30 characters; an empty display name is replaced by
the literal `Unknown CRS` first. -/
def crsShort (info : CrsInfo) : String :=
  let crs_name := if info.name == "" then "Unknown CRS" else info.name
  match zoneSearch crs_name.data with
  | some z => String.mk z
  | none => pyTake 30 crs_name

/-- Models the dictionary update of lines 1162-1168: append the path to
the existing group of the key, or create a new group (with the short
name fixed now) at the end of the insertion order. -/
def addToGroup : List (String × GroupData) → String → String → String → List (String × GroupData)
  | [], key, nm, path => [(key, ⟨nm, [path]⟩)]
  | (k, gd) :: rest, key, nm, path =>
    if k = key then (k, ⟨gd.name, gd.paths ++ [path]⟩) :: rest
    else (k, gd) :: addToGroup rest key nm path

/-- Models the truncated rendering `f[:30] + "..."` used by the
not-found guard of line 1196. -/
def truncId (f : String) : String := pyTake 30 f ++ "..."

/-- One iteration of the granule loop (opera_dock.py lines 1110-1200),
given the GDAL oracle `o`.  The first matching link (if any) is opened;
success groups its access path, failure appends the link basename to
`access_failed`; afterwards, a granule without a successful open is
appended to `not_found` unless its id equals some truncated
access-failed basename. -/
def processGranule (o : String → Option CrsInfo) (band : String)
    (st : ScanState) (g : Granule) : ScanState :=
  match findBandLink band g.data_links with
  | none =>
    if (st.access_failed.map truncId).contains g.id then st
    else { st with not_found := st.not_found ++ [pyTake 40 g.id] }
  | some link =>
    match o (get_vsicurl_path link) with
    | some info =>
      { st with files_by_crs :=
          addToGroup st.files_by_crs (crsKey info) (crsShort info) (get_vsicurl_path link) }
    | none =>
      let af := st.access_failed ++ [pyBasename link]
      if (af.map truncId).contains g.id then { st with access_failed := af }
      else { st with access_failed := af, not_found := st.not_found ++ [pyTake 40 g.id] }

/-- The whole scan over the selected granules, starting from the empty
state of lines 1101-1103. -/
def scanGranules (o : String → Option CrsInfo) (band : String) (gs : List Granule) : ScanState :=
  gs.foldl (processGranule o band) ⟨[], [], []⟩

/-- The sequence of access paths whose remote open succeeds, in
processing order: per granule, the first matching link translated by
`get_vsicurl_path`, kept when the oracle opens it. -/
def openedFiles (o : String → Option CrsInfo) (band : String) (gs : List Granule) : List String :=
  gs.filterMap (fun g =>
    match findBandLink band g.data_links with
    | none => none
    | some link =>
      if (o (get_vsicurl_path link)).isSome then some (get_vsicurl_path link) else none)

/-- Like `openedFiles` but paired with the metadata of the open. -/
def openedInfos (o : String → Option CrsInfo) (band : String) (gs : List Granule) :
    List (String × CrsInfo) :=
  gs.filterMap (fun g =>
    match findBandLink band g.data_links with
    | none => none
    | some link =>
      match o (get_vsicurl_path link) with
      | none => none
      | some info => some (get_vsicurl_path link, info))

/-- The concatenation of all path lists of the grouping dictionary. -/
def joinPaths (groups : List (String × GroupData)) : List String :=
  (groups.map (fun e => e.2.paths)).flatten

/-! ## Per-group mosaic builder (opera_dock.py lines 1223-1308) -/

/-- An axis-aligned rectangle, modelling `QgsRectangle` over exact
rationals. -/
structure Rect where
  xmin : ℚ
  ymin : ℚ
  xmax : ℚ
  ymax : ℚ
deriving DecidableEq

/-- Models `QgsRectangle.combineExtentWith`: the bounding box of the
union. -/
def combineExtent (a b : Rect) : Rect :=
  ⟨min a.xmin b.xmin, min a.ymin b.ymin, max a.xmax b.xmax, max a.ymax b.ymax⟩

/-- Models `QgsRectangle.scale(f)`: scales width and height by `f`
around the centre. -/
def scaleRect (f : ℚ) (r : Rect) : Rect :=
  let cx := (r.xmin + r.xmax) / 2
  let cy := (r.ymin + r.ymax) / 2
  let halfW := (r.xmax - r.xmin) * f / 2
  let halfH := (r.ymax - r.ymin) * f / 2
  ⟨cx - halfW, cy - halfH, cx + halfW, cy + halfH⟩

/-- The deterministic VRT file name of lines 1236-1238: spaces and
slashes of the CRS short name replaced by underscores. -/
def vrtFilename (crs_name : String) : String :=
  "opera_mosaic_" ++
    String.mk ((crs_name.data.map (fun c => if c == ' ' then '_' else c)).map
      (fun c => if c == '/' then '_' else c)) ++ ".vrt"

/-- Models `os.path.join(temp_dir, vrt_filename)` for a POSIX temporary
directory without a trailing slash. -/
def vrtPath (tmp : String) (crs_name : String) : String := tmp ++ "/" ++ vrtFilename crs_name

/-- The display layer name of line 1262. -/
def layerName (crs_name : String) (n : Nat) : String :=
  "OPERA Mosaic - " ++ crs_name ++ " (" ++ toString n ++ " scenes)"

/-- Oracles for the external collaborators of the build loop:
`openDS` models `gdal.Open` plus metadata extraction, `buildOK` models
success of `gdal.BuildVRT` on a target path and source list, `valid`
models `QgsRasterLayer(path, name).isValid()`, and `canvasExtent`
models the layer extent after the conditional reprojection of lines
1275-1286 into the canvas CRS. -/
structure BuildEnv where
  openDS : String → Option CrsInfo
  buildOK : String → List String → Bool
  valid : String → Bool
  canvasExtent : String → Rect

/-- The accumulator of the build loop: created layer names and the
running combined extent (absent until the first valid layer). -/
structure BuildAcc where
  layers : List String
  extent : Option Rect
deriving DecidableEq

/-- The combined-extent update of lines 1288-1291: the first valid
layer initialises the extent, later layers are folded in with
`combineExtentWith`. -/
def mergeExtent (acc : Option Rect) (r : Rect) : Option Rect :=
  some (match acc with
    | none => r
    | some ce => combineExtent ce r)

/-- One iteration of the build loop (lines 1223-1297): skip the group
when the VRT build fails or the layer is invalid, otherwise append the
layer and fold its canvas-CRS extent into the combined extent. -/
def buildStep (env : BuildEnv) (tmp : String) (acc : BuildAcc) (e : String × GroupData) : BuildAcc :=
  let path := vrtPath tmp e.2.name
  if env.buildOK path e.2.paths then
    if env.valid path then
      { layers := acc.layers ++ [layerName e.2.name e.2.paths.length],
        extent := mergeExtent acc.extent (env.canvasExtent path) }
    else acc
  else acc

/-- Whether the build loop creates a layer for this group. -/
def groupOK (env : BuildEnv) (tmp : String) (e : String × GroupData) : Bool :=
  env.buildOK (vrtPath tmp e.2.name) e.2.paths && env.valid (vrtPath tmp e.2.name)

/-- The build phase over all groups (lines 1221-1306): iterate the
groups in insertion order, fail when zero layers were created, and
otherwise scale the combined extent by the 5 percent margin. -/
def runBuild (env : BuildEnv) (tmp : String) (groups : List (String × GroupData)) :
    Except String (List String × Option Rect) :=
  let r := groups.foldl (buildStep env tmp) ⟨[], none⟩
  if r.layers.isEmpty then Except.error "Failed to create any mosaic layers"
  else Except.ok (r.layers, r.extent.map (scaleRect (21 / 20)))

/-- The mosaic operation after credential setup (opera_dock.py lines
1101-1308): scan and group the granules, fail when zero files were
grouped, and otherwise run the per-group build phase. -/
def displayMosaic (env : BuildEnv) (tmp band : String) (gs : List Granule) :
    Except String (List String × Option Rect) :=
  let st := scanGranules env.openDS band gs
  let total_files : Nat := (st.files_by_crs.map (fun e => e.2.paths.length)).sum
  if total_files = 0 then Except.error "No accessible files found for selected granules"
  else runBuild env tmp st.files_by_crs

/-! ## Spec-side definitions used for refinement comparisons -/

/-- Definition following the words of claim C1, for comparison with the
source translation `bandMatcher`: on no regex match, strip the `.tif`
suffix of the filename, split on underscore, and join the last two
segments, or use the single remaining segment verbatim when fewer than
two exist. -/
def bandTokenSpecC1 (filename : String) : String :=
  match bandRegexSearch filename with
  | some tok => tok
  | none =>
    let stripped :=
      if ".tif".data.isSuffixOf filename.data
      then String.mk (filename.data.take (filename.data.length - 4))
      else filename
    let parts := (pySplitChar '_' stripped.data).map String.mk
    match parts.reverse with
    | b :: a :: _ => a ++ "_" ++ b
    | [p] => p
    | [] => stripped

/-- Claim C1 amended to the behaviour of the source: the fallback
removes every occurrence of `.tif` from the filename (not only a
suffix) before splitting on underscore and joining the last two
segments. -/
def bandTokenSpecC1Amended (filename : String) : String :=
  match bandRegexSearch filename with
  | some tok => tok
  | none =>
    let parts := (pySplitChar '_' (pyReplaceTif filename.data)).map String.mk
    match parts.reverse with
    | b :: a :: _ => a ++ "_" ++ b
    | [p] => p
    | [] => filename

/-! ## Derived definitions used by the proofs -/

/-- The effect of one granule on the grouping dictionary alone. -/
def stepGroups (o : String → Option CrsInfo) (band : String)
    (groups : List (String × GroupData)) (g : Granule) : List (String × GroupData) :=
  match findBandLink band g.data_links with
  | none => groups
  | some link =>
    match o (get_vsicurl_path link) with
    | some info => addToGroup groups (crsKey info) (crsShort info) (get_vsicurl_path link)
    | none => groups

/-- The CRS-key invariant of the grouping dictionary: every path of a
group opens (under the oracle) to metadata whose key is the key of the
group. -/
def GroupsInv (o : String → Option CrsInfo) (groups : List (String × GroupData)) : Prop :=
  ∀ k gd, (k, gd) ∈ groups → ∀ p ∈ gd.paths, ∃ info, o p = some info ∧ crsKey info = k

/-- The insertion-ordered keys of the grouping dictionary. -/
def keysOf (groups : List (String × GroupData)) : List String := groups.map Prod.fst

/-- The union (bounding box fold) of a list of rectangles, `none` for
the empty list. -/
def listUnion (rs : List Rect) : Option Rect := rs.foldl mergeExtent none

/-! ## Concrete fixtures used by the witnesses -/

/-- A concrete oracle opening two files in the same UTM zone 12N CRS. -/
def oracleA : String → Option CrsInfo := fun p =>
  if p = "/vsicurl/https://h/a_B01_WTR.tif" then
    some ⟨"PROJA", "WGS 84 / UTM zone 12N", some "32612"⟩
  else if p = "/vsicurl/https://h/b_B01_WTR.tif" then
    some ⟨"PROJB", "WGS 84 / UTM zone 12N", some "32612"⟩
  else none

/-- Two concrete granules whose files both resolve to EPSG:32612. -/
def granulesA : List Granule :=
  [⟨"G1", ["https://h/a_B01_WTR.tif"]⟩, ⟨"G2", ["https://h/b_B01_WTR.tif"]⟩]

/-- A concrete build environment in which exactly the UTM zone 13N
group fails to build. -/
def envC3 : BuildEnv :=
  ⟨fun _ => none,
   fun p _ => !(p == vrtPath "/tmp" "UTM zone 13N"),
   fun _ => true,
   fun p => if p == vrtPath "/tmp" "UTM zone 12N" then ⟨0, 0, 1, 1⟩ else ⟨2, 2, 3, 3⟩⟩

/-- Three concrete CRS groups, of which exactly one fails to build. -/
def groupsC3 : List (String × GroupData) :=
  [("EPSG:32612", ⟨"UTM zone 12N", ["pa", "pb"]⟩),
   ("EPSG:32613", ⟨"UTM zone 13N", ["pc"]⟩),
   ("EPSG:4326", ⟨"WGS 84", ["pd"]⟩)]

/-- A build environment whose remote opens always fail. -/
def envFail : BuildEnv :=
  ⟨fun _ => none, fun _ _ => true, fun _ => true, fun _ => ⟨0, 0, 1, 1⟩⟩

/-! ## Helper lemmas -/

theorem prefixOf_head_eq {a b : Char} {as bs l : List Char}
    (ha : (a :: as).isPrefixOf l = true) (hb : (b :: bs).isPrefixOf l = true) : a = b := by
  cases l with
  | nil => simp [List.isPrefixOf] at ha
  | cons c cs =>
    simp [List.isPrefixOf] at ha hb
    exact ha.1.trans hb.1.symm

theorem pyJoin_pair (a b : String) : pyJoin "_" [a, b] = a ++ "_" ++ b := rfl

theorem lastTwoJoin (parts : List String) (dflt : String) :
    (if parts.length ≥ 2 then pyJoin "_" (parts.drop (parts.length - 2))
     else
       match parts.getLast? with
       | some p => p
       | none => dflt) =
      (match parts.reverse with
       | b :: a :: _ => a ++ "_" ++ b
       | [p] => p
       | [] => dflt) := by
  match h : parts.reverse with
  | [] =>
    have hp : parts = [] := by
      have := congrArg List.reverse h
      simpa using this
    subst hp
    simp
  | [b] =>
    have hp : parts = [b] := by
      have := congrArg List.reverse h
      simpa using this
    subst hp
    simp
  | b :: a :: t =>
    have hp : parts = t.reverse ++ [a, b] := by
      have := congrArg List.reverse h
      simpa using this
    subst hp
    have hlen : (t.reverse ++ [a, b]).length = t.reverse.length + 2 := by
      simp
    have hge : (t.reverse ++ [a, b]).length ≥ 2 := by omega
    have hdrop : (t.reverse ++ [a, b]).drop ((t.reverse ++ [a, b]).length - 2) = [a, b] := by
      have : (t.reverse ++ [a, b]).length - 2 = t.reverse.length := by omega
      rw [this]
      exact List.drop_left t.reverse [a, b]
    simp only [if_pos hge, hdrop, pyJoin_pair]

theorem matchGroupAt_ne_nil {l g : List Char} (h : matchGroupAt l = some g) : g ≠ [] := by
  unfold matchGroupAt at h
  split at h
  · exact absurd h (by simp)
  · split at h
    · split at h
      · exact absurd h (by simp)
      · split at h
        · split at h
          · exact absurd h (by simp)
          · split at h
            · simp only [Option.some.injEq] at h
              subst h
              simp
            · exact absurd h (by simp)
        · exact absurd h (by simp)
    · exact absurd h (by simp)

theorem searchUnderscore_ne_nil {l g : List Char} (h : searchUnderscore l = some g) : g ≠ [] := by
  induction l with
  | nil => simp [searchUnderscore] at h
  | cons c rest ih =>
    unfold searchUnderscore at h
    split at h
    · split at h
      · next heq =>
        simp only [Option.some.injEq] at h
        subst h
        exact matchGroupAt_ne_nil heq
      · exact ih h
    · exact ih h

theorem bandRegexSearch_ne_empty {s : String} {tok : String}
    (h : bandRegexSearch s = some tok) : tok ≠ "" := by
  unfold bandRegexSearch at h
  match hg : searchUnderscore s.data with
  | none => rw [hg] at h; simp at h
  | some g =>
    rw [hg] at h
    rw [show Option.map String.mk (some g) = some (String.mk g) from rfl] at h
    have h2 := Option.some.inj h
    subst h2
    have hne := searchUnderscore_ne_nil hg
    intro hcontra
    exact hne (congrArg String.data hcontra)

theorem pySplitChar_ne_nil (sep : Char) (l : List Char) : pySplitChar sep l ≠ [] := by
  cases l with
  | nil => simp [pySplitChar]
  | cons c cs =>
    unfold pySplitChar
    split
    · simp
    · split <;> simp

theorem joinParts_pySplitChar (sep : Char) (l : List Char) :
    joinParts sep (pySplitChar sep l) = l := by
  induction l with
  | nil => rfl
  | cons c cs ih =>
    unfold pySplitChar
    split
    · next hc =>
      subst hc
      have hne := pySplitChar_ne_nil c cs
      match hr : pySplitChar c cs with
      | [] => exact absurd hr hne
      | h1 :: t1 =>
        rw [hr] at ih
        show c :: joinParts c (h1 :: t1) = c :: cs
        rw [ih]
    · next hc =>
      have hne := pySplitChar_ne_nil sep cs
      match hr : pySplitChar sep cs with
      | [] => exact absurd hr hne
      | h1 :: t1 =>
        rw [hr] at ih
        cases t1 with
        | nil =>
          show c :: h1 = c :: cs
          simp only [joinParts] at ih
          rw [ih]
        | cons h2 t2 =>
          show (c :: h1) ++ sep :: joinParts sep (h2 :: t2) = c :: cs
          simp only [joinParts] at ih
          simp only [List.cons_append]
          rw [ih]

/-! ## Claim C9: URL translation -/

/-- C9: for every URL string, `get_vsicurl_path` returns `/vsis3/`
followed by the URL without its `s3://` prefix when the URL starts with
`s3://`, `/vsicurl/` followed by the whole URL when it starts with
`https://` or `http://`, and the URL unchanged in every other case. -/
theorem get_vsicurl_path_spec (url : String) :
    (strStartsWith url "s3://" = true →
      get_vsicurl_path url = "/vsis3/" ++ String.mk (url.data.drop 5)) ∧
    ((strStartsWith url "https://" = true ∨ strStartsWith url "http://" = true) →
      get_vsicurl_path url = "/vsicurl/" ++ url) ∧
    (strStartsWith url "s3://" = false → strStartsWith url "https://" = false →
      strStartsWith url "http://" = false → get_vsicurl_path url = url) := by
  refine ⟨fun h1 => ?_, fun h2 => ?_, fun h3 h4 h5 => ?_⟩
  · simp [get_vsicurl_path, h1]
  · have hns3 : strStartsWith url "s3://" = false := by
      rcases h2 with h2 | h2 <;>
      · cases hs3 : strStartsWith url "s3://"
        · rfl
        · exact absurd (prefixOf_head_eq hs3 h2) (by decide)
    rcases h2 with h2 | h2
    · simp [get_vsicurl_path, hns3, h2]
    · cases hhs : strStartsWith url "https://"
      · simp [get_vsicurl_path, hns3, hhs, h2]
      · simp [get_vsicurl_path, hns3, hhs]
  · simp [get_vsicurl_path, h3, h4, h5]

/-- Witness for C9 at concrete URLs of all three shapes. -/
theorem get_vsicurl_path_spec_witness :
    get_vsicurl_path "s3://bucket/key_B01_WTR.tif" = "/vsis3/bucket/key_B01_WTR.tif" ∧
    get_vsicurl_path "https://host/key_B01_WTR.tif" = "/vsicurl/https://host/key_B01_WTR.tif" ∧
    get_vsicurl_path "ftp://host/key.tif" = "ftp://host/key.tif" := by
  refine ⟨?_, ?_, ?_⟩
  · have h := (get_vsicurl_path_spec "s3://bucket/key_B01_WTR.tif").1 (by decide)
    simpa using h
  · have h := (get_vsicurl_path_spec "https://host/key_B01_WTR.tif").2.1 (Or.inl (by decide))
    simpa using h
  · exact (get_vsicurl_path_spec "ftp://host/key.tif").2.2 (by decide) (by decide) (by decide)

/-! ## Claim C1: band matcher against the spec wording (corrected) -/

/-- C1 counterexample: on the filename `a.tif_b` the source removes the
interior occurrence of `.tif` before splitting (giving `a_b`), while
the claim, which strips only a `.tif` suffix, gives `a.tif_b`. -/
theorem bandMatcher_suffix_strip_counterexample :
    bandMatcher "a.tif_b" ≠ bandTokenSpecC1 "a.tif_b" := by decide

/-- C1 amended: for every filename the band matcher returns the
captured group of the band pattern when it matches, and otherwise the
join of the last two underscore-separated segments of the filename
with every occurrence of `.tif` removed, or the single remaining
segment verbatim when fewer than two segments exist. -/
theorem bandMatcher_eq_specC1Amended (s : String) :
    bandMatcher s = bandTokenSpecC1Amended s := by
  unfold bandMatcher bandTokenSpecC1Amended
  cases hm : bandRegexSearch s
  · simp only
    exact lastTwoJoin ((pySplitChar '_' (pyReplaceTif s.data)).map String.mk) s
  · rfl

/-! ## Claim C8: band matcher totality and non-emptiness (corrected) -/

/-- C8 counterexample: the filename `.tif` (non-empty) produces the
empty token, refuting the claim that the token is always non-empty. -/
theorem bandMatcher_empty_counterexample : bandMatcher ".tif" = "" := by decide

/-- C8 amended: the band matcher is a total function (it never raises),
and it produces a non-empty token for every filename whose residue
after removing all occurrences of `.tif` is non-empty; only filenames
made entirely of `.tif` occurrences give the empty token. -/
theorem bandMatcher_ne_empty (s : String) (h : pyReplaceTif s.data ≠ []) :
    bandMatcher s ≠ "" := by
  unfold bandMatcher
  cases hm : bandRegexSearch s with
  | some tok => exact bandRegexSearch_ne_empty hm
  | none =>
    simp only
    have hsplit := pySplitChar_ne_nil '_' (pyReplaceTif s.data)
    set parts := (pySplitChar '_' (pyReplaceTif s.data)).map String.mk with hparts
    by_cases hlen : parts.length ≥ 2
    · rw [if_pos hlen]
      have hdl : (parts.drop (parts.length - 2)).length = 2 := by
        rw [List.length_drop]
        omega
      match hd : parts.drop (parts.length - 2) with
      | [a, b] =>
        rw [pyJoin_pair]
        intro hcontra
        have hdata := congrArg String.data hcontra
        simp at hdata
      | [] => rw [hd] at hdl; simp at hdl
      | [a] => rw [hd] at hdl; simp at hdl
      | a :: b :: c :: t => rw [hd] at hdl; simp at hdl
    · match hsp : pySplitChar '_' (pyReplaceTif s.data) with
      | [] => exact absurd hsp hsplit
      | [l] =>
        have hl : l = pyReplaceTif s.data := by
          have := joinParts_pySplitChar '_' (pyReplaceTif s.data)
          rw [hsp] at this
          simpa [joinParts] using this
        rw [hparts, hsp]
        simp only [List.map_cons, List.map_nil, List.getLast?_singleton]
        intro hcontra
        have : l = [] := congrArg String.data hcontra
        rw [hl] at this
        exact h this
      | l1 :: l2 :: t =>
        exfalso
        apply hlen
        rw [hparts, hsp]
        simp

/-- Witness for C8 at the concrete filename `scene_output.tif`. -/
theorem bandMatcher_ne_empty_witness :
    pyReplaceTif ("scene_output.tif").data ≠ [] ∧ bandMatcher "scene_output.tif" ≠ "" :=
  ⟨by decide, bandMatcher_ne_empty "scene_output.tif" (by decide)⟩

/-! ## Claim C6: first matching link is chosen, later links unexamined -/

/-- C6: for every granule link list of the form `pre ++ m :: post` where
no link of `pre` matches the band token and `m` matches, the link
chosen for CRS probing is exactly `m`; the result does not depend on
`post`, so links after the first match are never examined. -/
theorem findBandLink_first_match (band m : String) (pre post : List String)
    (hpre : ∀ l ∈ pre, linkMatches band l = false) (hm : linkMatches band m = true) :
    findBandLink band (pre ++ m :: post) = some m := by
  induction pre with
  | nil => simp [findBandLink, hm]
  | cons a rest ih =>
    have ha := hpre a (by simp)
    simp only [List.cons_append, findBandLink, ha]
    simp only [Bool.false_eq_true, if_false]
    exact ih (fun l hl => hpre l (by simp [hl]))

/-- Witness for C6: with band token `B01_WTR`, a non-matching first
link, a matching second link and a further matching link after it, the
second link is chosen. -/
theorem findBandLink_first_match_witness :
    (∀ l ∈ (["https://h/x_B02_BWTR.tif"] : List String), linkMatches "B01_WTR" l = false) ∧
    linkMatches "B01_WTR" "https://h/x_B01_WTR.tif" = true ∧
    findBandLink "B01_WTR"
        (["https://h/x_B02_BWTR.tif"] ++ "https://h/x_B01_WTR.tif" :: ["https://h/y_B01_WTR.tif"]) =
      some "https://h/x_B01_WTR.tif" :=
  ⟨by decide, by decide,
    findBandLink_first_match "B01_WTR" "https://h/x_B01_WTR.tif"
      ["https://h/x_B02_BWTR.tif"] ["https://h/y_B01_WTR.tif"] (by decide) (by decide)⟩

/-! ## Grouping machinery shared by claims C2, C4, C7 and C10 -/

theorem processGranule_files (o : String → Option CrsInfo) (band : String)
    (st : ScanState) (g : Granule) :
    (processGranule o band st g).files_by_crs = stepGroups o band st.files_by_crs g := by
  unfold processGranule stepGroups
  split
  · split <;> rfl
  · split
    · rfl
    · dsimp only
      split <;> rfl

theorem scanFold_files (o : String → Option CrsInfo) (band : String)
    (gs : List Granule) (st : ScanState) :
    (gs.foldl (processGranule o band) st).files_by_crs =
      gs.foldl (stepGroups o band) st.files_by_crs := by
  induction gs generalizing st with
  | nil => rfl
  | cons g rest ih =>
    simp only [List.foldl_cons]
    rw [ih, processGranule_files]

theorem joinPaths_nil : joinPaths [] = [] := rfl

theorem joinPaths_cons (e : String × GroupData) (rest : List (String × GroupData)) :
    joinPaths (e :: rest) = e.2.paths ++ joinPaths rest := by
  simp [joinPaths]

theorem joinPaths_addToGroup (groups : List (String × GroupData)) (key nm path : String) :
    (joinPaths (addToGroup groups key nm path)).Perm (joinPaths groups ++ [path]) := by
  induction groups with
  | nil => simp [addToGroup, joinPaths]
  | cons e rest ih =>
    obtain ⟨k, gd⟩ := e
    unfold addToGroup
    by_cases hk : k = key
    · rw [if_pos hk]
      rw [joinPaths_cons, joinPaths_cons]
      simp only
      rw [List.append_assoc, List.append_assoc]
      exact List.Perm.append_left gd.paths List.perm_append_comm
    · rw [if_neg hk]
      rw [joinPaths_cons, joinPaths_cons]
      simp only
      rw [List.append_assoc]
      exact List.Perm.append_left gd.paths ih

theorem joinPaths_foldl_stepGroups (o : String → Option CrsInfo) (band : String)
    (gs : List Granule) (G : List (String × GroupData)) :
    (joinPaths (gs.foldl (stepGroups o band) G)).Perm (joinPaths G ++ openedFiles o band gs) := by
  induction gs generalizing G with
  | nil => simp [openedFiles]
  | cons g rest ih =>
    simp only [List.foldl_cons]
    match hf : findBandLink band g.data_links with
    | none =>
      have hstep : stepGroups o band G g = G := by simp [stepGroups, hf]
      have hop : openedFiles o band (g :: rest) = openedFiles o band rest := by
        simp [openedFiles, List.filterMap_cons, hf]
      rw [hstep, hop]
      exact ih G
    | some link =>
      match ho : o (get_vsicurl_path link) with
      | none =>
        have hstep : stepGroups o band G g = G := by simp [stepGroups, hf, ho]
        have hop : openedFiles o band (g :: rest) = openedFiles o band rest := by
          simp [openedFiles, List.filterMap_cons, hf, ho]
        rw [hstep, hop]
        exact ih G
      | some info =>
        have hstep : stepGroups o band G g =
            addToGroup G (crsKey info) (crsShort info) (get_vsicurl_path link) := by
          simp [stepGroups, hf, ho]
        have hop : openedFiles o band (g :: rest) =
            get_vsicurl_path link :: openedFiles o band rest := by
          simp [openedFiles, List.filterMap_cons, hf, ho]
        rw [hstep, hop]
        have h1 := ih (addToGroup G (crsKey info) (crsShort info) (get_vsicurl_path link))
        have h2 := (joinPaths_addToGroup G (crsKey info) (crsShort info)
          (get_vsicurl_path link)).append_right (openedFiles o band rest)
        have h3 := h1.trans h2
        have h4 : (joinPaths G ++ [get_vsicurl_path link]) ++ openedFiles o band rest =
            joinPaths G ++ get_vsicurl_path link :: openedFiles o band rest := by
          simp
        rw [h4] at h3
        exact h3

theorem groupsInv_addToGroup (o : String → Option CrsInfo) (groups : List (String × GroupData))
    (p : String) (info : CrsInfo) (nm : String)
    (hp : o p = some info) (hinv : GroupsInv o groups) :
    GroupsInv o (addToGroup groups (crsKey info) nm p) := by
  induction groups with
  | nil =>
    intro k gd hmem q hq
    simp [addToGroup] at hmem
    obtain ⟨hk, hgd⟩ := hmem
    subst hk
    subst hgd
    simp at hq
    subst hq
    exact ⟨info, hp, rfl⟩
  | cons e rest ih =>
    obtain ⟨k0, gd0⟩ := e
    have hinv0 : GroupsInv o rest := fun k gd hm => hinv k gd (List.mem_cons_of_mem _ hm)
    unfold addToGroup
    by_cases hk0 : k0 = crsKey info
    · rw [if_pos hk0]
      intro k gd hmem q hq
      rcases List.mem_cons.mp hmem with heq | hmem2
      · injection heq with hk hgd
        subst hk
        subst hgd
        rcases List.mem_append.mp hq with hq1 | hq2
        · exact hinv k gd0 (List.mem_cons_self _ _) q hq1
        · simp at hq2
          subst hq2
          exact ⟨info, hp, hk0.symm⟩
      · exact hinv0 k gd hmem2 q hq
    · rw [if_neg hk0]
      intro k gd hmem q hq
      rcases List.mem_cons.mp hmem with heq | hmem2
      · injection heq with hk hgd
        subst hk
        subst hgd
        exact hinv _ _ (List.mem_cons_self _ _) q hq
      · exact ih hinv0 k gd hmem2 q hq

theorem groupsInv_foldl (o : String → Option CrsInfo) (band : String)
    (gs : List Granule) (G : List (String × GroupData)) (hinv : GroupsInv o G) :
    GroupsInv o (gs.foldl (stepGroups o band) G) := by
  induction gs generalizing G with
  | nil => exact hinv
  | cons g rest ih =>
    simp only [List.foldl_cons]
    apply ih
    unfold stepGroups
    split
    · exact hinv
    · split
      · next info heq => exact groupsInv_addToGroup o G _ info _ heq hinv
      · exact hinv

/-! ## Claim C2: grouping is a partition of the opened files -/

/-- C2: for every oracle, band token and granule sequence, the
concatenation of all path lists of the grouping dictionary is a
permutation of the sequence of successfully opened access paths (so
every opened file is appended to exactly one group, with multiplicity),
within one group every path opens to the CRS identity key of that
group, and no path belongs to two groups with different keys. -/
theorem scan_partition (o : String → Option CrsInfo) (band : String) (gs : List Granule) :
    (joinPaths (scanGranules o band gs).files_by_crs).Perm (openedFiles o band gs) ∧
    GroupsInv o (scanGranules o band gs).files_by_crs ∧
    (∀ p k1 gd1 k2 gd2, (k1, gd1) ∈ (scanGranules o band gs).files_by_crs →
      (k2, gd2) ∈ (scanGranules o band gs).files_by_crs →
      p ∈ gd1.paths → p ∈ gd2.paths → k1 = k2) := by
  have hfiles : (scanGranules o band gs).files_by_crs = gs.foldl (stepGroups o band) [] :=
    scanFold_files o band gs ⟨[], [], []⟩
  have hinv : GroupsInv o (scanGranules o band gs).files_by_crs := by
    rw [hfiles]
    exact groupsInv_foldl o band gs [] (by intro k gd h; simp at h)
  refine ⟨?_, hinv, ?_⟩
  · rw [hfiles]
    have h := joinPaths_foldl_stepGroups o band gs []
    simpa [joinPaths] using h
  · intro p k1 gd1 k2 gd2 h1 h2 hp1 hp2
    obtain ⟨i1, hi1, hk1⟩ := hinv k1 gd1 h1 p hp1
    obtain ⟨i2, hi2, hk2⟩ := hinv k2 gd2 h2 p hp2
    rw [hi1] at hi2
    have : i1 = i2 := Option.some.inj hi2
    subst this
    exact hk1.symm.trans hk2

/-- Witness for C2 at the concrete oracle and granules above,
instantiating the no-two-groups conjunct at the first opened path and
the single group. -/
theorem scan_partition_witness :
    (joinPaths (scanGranules oracleA "B01_WTR" granulesA).files_by_crs).Perm
      (openedFiles oracleA "B01_WTR" granulesA) ∧
    ("EPSG:32612" : String) = "EPSG:32612" := by
  refine ⟨(scan_partition oracleA "B01_WTR" granulesA).1, ?_⟩
  exact (scan_partition oracleA "B01_WTR" granulesA).2.2 "/vsicurl/https://h/a_B01_WTR.tif"
    "EPSG:32612"
    ⟨"UTM zone 12N", ["/vsicurl/https://h/a_B01_WTR.tif", "/vsicurl/https://h/b_B01_WTR.tif"]⟩
    "EPSG:32612"
    ⟨"UTM zone 12N", ["/vsicurl/https://h/a_B01_WTR.tif", "/vsicurl/https://h/b_B01_WTR.tif"]⟩
    (by decide) (by decide) (by decide) (by decide)

/-! ## Key uniqueness machinery for claims C7 and C10 -/

theorem keysOf_addToGroup_mem (groups : List (String × GroupData)) (key nm path x : String) :
    x ∈ keysOf (addToGroup groups key nm path) ↔ x ∈ keysOf groups ∨ x = key := by
  induction groups with
  | nil => simp [addToGroup, keysOf]
  | cons e rest ih =>
    obtain ⟨k0, gd0⟩ := e
    unfold addToGroup
    by_cases hk : k0 = key
    · rw [if_pos hk]
      subst hk
      simp [keysOf]
      tauto
    · rw [if_neg hk]
      simp only [keysOf, List.map_cons, List.mem_cons] at ih ⊢
      rw [ih]
      tauto

theorem nodupKeys_addToGroup (groups : List (String × GroupData)) (key nm path : String)
    (h : (keysOf groups).Nodup) : (keysOf (addToGroup groups key nm path)).Nodup := by
  induction groups with
  | nil => simp [addToGroup, keysOf]
  | cons e rest ih =>
    obtain ⟨k0, gd0⟩ := e
    unfold addToGroup
    simp only [keysOf, List.map_cons, List.nodup_cons] at h
    by_cases hk : k0 = key
    · rw [if_pos hk]
      simp only [keysOf, List.map_cons, List.nodup_cons]
      exact h
    · rw [if_neg hk]
      simp only [keysOf, List.map_cons, List.nodup_cons]
      refine ⟨?_, ih h.2⟩
      intro hmem
      rcases (keysOf_addToGroup_mem rest key nm path k0).mp hmem with h1 | h2
      · exact h.1 h1
      · exact hk h2

theorem nodupKeys_foldl (o : String → Option CrsInfo) (band : String)
    (gs : List Granule) (G : List (String × GroupData)) (h : (keysOf G).Nodup) :
    (keysOf (gs.foldl (stepGroups o band) G)).Nodup := by
  induction gs generalizing G with
  | nil => exact h
  | cons g rest ih =>
    simp only [List.foldl_cons]
    apply ih
    unfold stepGroups
    split
    · exact h
    · split
      · exact nodupKeys_addToGroup G _ _ _ h
      · exact h

theorem eq_of_mem_nodupKeys {groups : List (String × GroupData)} {k : String}
    {gd1 gd2 : GroupData} (hnd : (keysOf groups).Nodup)
    (h1 : (k, gd1) ∈ groups) (h2 : (k, gd2) ∈ groups) : gd1 = gd2 := by
  induction groups with
  | nil => simp at h1
  | cons e rest ih =>
    obtain ⟨k0, gd0⟩ := e
    simp only [keysOf, List.map_cons, List.nodup_cons] at hnd
    rcases List.mem_cons.mp h1 with he1 | hr1
    · rcases List.mem_cons.mp h2 with he2 | hr2
      · injection he1 with ha1 hb1
        injection he2 with ha2 hb2
        rw [hb1, hb2]
      · exfalso
        injection he1 with ha1 hb1
        apply hnd.1
        rw [← ha1]
        exact List.mem_map_of_mem Prod.fst hr2
    · rcases List.mem_cons.mp h2 with he2 | hr2
      · exfalso
        injection he2 with ha2 hb2
        apply hnd.1
        rw [← ha2]
        exact List.mem_map_of_mem Prod.fst hr1
      · exact ih hnd.2 hr1 hr2

theorem mem_group_of_mem_joinPaths {groups : List (String × GroupData)} {p : String}
    (h : p ∈ joinPaths groups) : ∃ k gd, (k, gd) ∈ groups ∧ p ∈ gd.paths := by
  unfold joinPaths at h
  rw [List.mem_flatten] at h
  obtain ⟨l, hl, hp⟩ := h
  rw [List.mem_map] at hl
  obtain ⟨e, he, hle⟩ := hl
  exact ⟨e.1, e.2, he, hle ▸ hp⟩

theorem crsKey_some {info : CrsInfo} {e : String} (h : info.epsg = some e) (hne : e ≠ "") :
    crsKey info = "EPSG:" ++ e := by
  unfold crsKey
  rw [h]
  simp [hne]

theorem crsKey_none {info : CrsInfo} (h : info.epsg = none) :
    crsKey info = pyTake 100 info.proj := by
  unfold crsKey
  rw [h]

/-! ## Claim C7: grouping key and same-EPSG files share a group -/

/-- C7: the grouping key is the string `EPSG:<code>` when the authority
code resolves (is present and non-empty), otherwise the first 100
characters of the raw CRS description; consequently any two opened
files reporting the same (non-empty) EPSG code are in the same group
of the scan result, whatever the discovery order in `gs`. -/
theorem crsKey_epsg_grouping (o : String → Option CrsInfo) (band : String) (gs : List Granule) :
    (∀ (info : CrsInfo) (e : String), info.epsg = some e → e ≠ "" →
      crsKey info = "EPSG:" ++ e) ∧
    (∀ info : CrsInfo, info.epsg = none ∨ info.epsg = some "" →
      crsKey info = pyTake 100 info.proj) ∧
    (∀ p1 p2 info1 info2 e,
      p1 ∈ openedFiles o band gs → p2 ∈ openedFiles o band gs →
      o p1 = some info1 → o p2 = some info2 →
      info1.epsg = some e → info2.epsg = some e → e ≠ "" →
      ∃ k gd, (k, gd) ∈ (scanGranules o band gs).files_by_crs ∧
        p1 ∈ gd.paths ∧ p2 ∈ gd.paths) := by
  refine ⟨fun info e h hne => crsKey_some h hne, ?_, ?_⟩
  · intro info h
    rcases h with h | h
    · exact crsKey_none h
    · unfold crsKey
      rw [h]
      simp
  intro p1 p2 info1 info2 e hp1 hp2 ho1 ho2 he1 he2 hne
  have hfiles : (scanGranules o band gs).files_by_crs = gs.foldl (stepGroups o band) [] :=
    scanFold_files o band gs ⟨[], [], []⟩
  have hperm : (joinPaths (scanGranules o band gs).files_by_crs).Perm (openedFiles o band gs) := by
    rw [hfiles]
    have h := joinPaths_foldl_stepGroups o band gs []
    simpa [joinPaths] using h
  have hinv : GroupsInv o (scanGranules o band gs).files_by_crs := by
    rw [hfiles]
    exact groupsInv_foldl o band gs [] (by intro k gd h; simp at h)
  have hnd : (keysOf (scanGranules o band gs).files_by_crs).Nodup := by
    rw [hfiles]
    exact nodupKeys_foldl o band gs [] (by simp [keysOf])
  have hm1 : p1 ∈ joinPaths (scanGranules o band gs).files_by_crs := hperm.mem_iff.mpr hp1
  have hm2 : p2 ∈ joinPaths (scanGranules o band gs).files_by_crs := hperm.mem_iff.mpr hp2
  obtain ⟨k1, gd1, hg1, hpath1⟩ := mem_group_of_mem_joinPaths hm1
  obtain ⟨k2, gd2, hg2, hpath2⟩ := mem_group_of_mem_joinPaths hm2
  obtain ⟨i1, hi1, hk1⟩ := hinv k1 gd1 hg1 p1 hpath1
  obtain ⟨i2, hi2, hk2⟩ := hinv k2 gd2 hg2 p2 hpath2
  rw [ho1] at hi1
  rw [ho2] at hi2
  have hi1e : i1 = info1 := (Option.some.inj hi1).symm
  have hi2e : i2 = info2 := (Option.some.inj hi2).symm
  subst hi1e
  subst hi2e
  have hkk : k1 = k2 := by
    rw [← hk1, ← hk2, crsKey_some he1 hne, crsKey_some he2 hne]
  subst hkk
  have hgd : gd1 = gd2 := eq_of_mem_nodupKeys hnd hg1 hg2
  subst hgd
  exact ⟨k1, gd1, hg1, hpath1, hpath2⟩

/-- Witness for C7: the two concrete files of `oracleA` report EPSG
code 32612 and end up in one group. -/
theorem crsKey_epsg_grouping_witness :
    crsKey ⟨"PROJA", "WGS 84 / UTM zone 12N", some "32612"⟩ = "EPSG:" ++ "32612" ∧
    ∃ k gd, (k, gd) ∈ (scanGranules oracleA "B01_WTR" granulesA).files_by_crs ∧
      "/vsicurl/https://h/a_B01_WTR.tif" ∈ gd.paths ∧
      "/vsicurl/https://h/b_B01_WTR.tif" ∈ gd.paths := by
  constructor
  · exact (crsKey_epsg_grouping oracleA "B01_WTR" granulesA).1
      ⟨"PROJA", "WGS 84 / UTM zone 12N", some "32612"⟩ "32612" (by decide) (by decide)
  · exact (crsKey_epsg_grouping oracleA "B01_WTR" granulesA).2.2
      "/vsicurl/https://h/a_B01_WTR.tif" "/vsicurl/https://h/b_B01_WTR.tif"
      ⟨"PROJA", "WGS 84 / UTM zone 12N", some "32612"⟩
      ⟨"PROJB", "WGS 84 / UTM zone 12N", some "32612"⟩
      "32612" (by decide) (by decide) (by decide) (by decide) (by decide) (by decide) (by decide)

/-! ## Group-name persistence machinery for claim C10 -/

theorem addToGroup_mem_of_mem {groups : List (String × GroupData)} {k : String}
    {gd0 : GroupData} (key nm path : String) (h : (k, gd0) ∈ groups) :
    ∃ gd1, (k, gd1) ∈ addToGroup groups key nm path ∧ gd1.name = gd0.name := by
  induction groups with
  | nil => simp at h
  | cons e rest ih =>
    obtain ⟨k1, g1⟩ := e
    unfold addToGroup
    by_cases hk : k1 = key
    · rw [if_pos hk]
      rcases List.mem_cons.mp h with he | hr
      · injection he with ha hb
        subst ha
        refine ⟨⟨g1.name, g1.paths ++ [path]⟩, List.mem_cons_self _ _, ?_⟩
        rw [hb]
      · exact ⟨gd0, List.mem_cons_of_mem _ hr, rfl⟩
    · rw [if_neg hk]
      rcases List.mem_cons.mp h with he | hr
      · exact ⟨gd0, List.mem_cons.mpr (Or.inl he), rfl⟩
      · obtain ⟨gd1, hg, hn⟩ := ih hr
        exact ⟨gd1, List.mem_cons_of_mem _ hg, hn⟩

theorem addToGroup_mem_new (groups : List (String × GroupData)) (key nm path : String)
    (hk : key ∉ keysOf groups) :
    ((key, ⟨nm, [path]⟩) : String × GroupData) ∈ addToGroup groups key nm path := by
  induction groups with
  | nil => simp [addToGroup]
  | cons e rest ih =>
    obtain ⟨k1, g1⟩ := e
    simp only [keysOf, List.map_cons, List.mem_cons] at hk
    have hk1 : key ≠ k1 := fun h => hk (Or.inl h)
    have hk2 : key ∉ keysOf rest := fun h => hk (Or.inr h)
    unfold addToGroup
    rw [if_neg (fun h => hk1 h.symm)]
    exact List.mem_cons_of_mem _ (ih hk2)

theorem stepGroups_mem_of_mem (o : String → Option CrsInfo) (band : String)
    (G : List (String × GroupData)) (g : Granule) {k : String} {gd0 : GroupData}
    (h : (k, gd0) ∈ G) :
    ∃ gd1, (k, gd1) ∈ stepGroups o band G g ∧ gd1.name = gd0.name := by
  unfold stepGroups
  split
  · exact ⟨gd0, h, rfl⟩
  · split
    · exact addToGroup_mem_of_mem _ _ _ h
    · exact ⟨gd0, h, rfl⟩

theorem stepGroups_nodup (o : String → Option CrsInfo) (band : String)
    (G : List (String × GroupData)) (g : Granule) (h : (keysOf G).Nodup) :
    (keysOf (stepGroups o band G g)).Nodup := by
  unfold stepGroups
  split
  · exact h
  · split
    · exact nodupKeys_addToGroup G _ _ _ h
    · exact h

theorem foldl_preserves_entry_name (o : String → Option CrsInfo) (band : String)
    (gs : List Granule) (G : List (String × GroupData)) (k : String) (gd0 : GroupData)
    (hnd : (keysOf G).Nodup) (h0 : (k, gd0) ∈ G) (gd : GroupData)
    (hgd : (k, gd) ∈ gs.foldl (stepGroups o band) G) : gd.name = gd0.name := by
  induction gs generalizing G gd0 with
  | nil => rw [eq_of_mem_nodupKeys hnd hgd h0]
  | cons g rest ih =>
    simp only [List.foldl_cons] at hgd
    obtain ⟨gd1, hg1, hn1⟩ := stepGroups_mem_of_mem o band G g h0
    have h2 := ih (stepGroups o band G g) gd1 (stepGroups_nodup o band G g hnd) hg1 hgd
    rw [h2, hn1]

theorem name_from_first_creator (o : String → Option CrsInfo) (band : String)
    (gs : List Granule) (G : List (String × GroupData)) (k : String) (gd : GroupData)
    (hnd : (keysOf G).Nodup) (hk : k ∉ keysOf G)
    (hmem : (k, gd) ∈ gs.foldl (stepGroups o band) G) :
    ∃ p info, (openedInfos o band gs).find? (fun q => crsKey q.2 == k) = some (p, info) ∧
      gd.name = crsShort info := by
  induction gs generalizing G with
  | nil => exact absurd (List.mem_map_of_mem Prod.fst hmem) hk
  | cons g rest ih =>
    simp only [List.foldl_cons] at hmem
    match hf : findBandLink band g.data_links with
    | none =>
      have hstep : stepGroups o band G g = G := by simp [stepGroups, hf]
      have hop : openedInfos o band (g :: rest) = openedInfos o band rest := by
        simp [openedInfos, List.filterMap_cons, hf]
      rw [hstep] at hmem
      rw [hop]
      exact ih G hnd hk hmem
    | some link =>
      match ho : o (get_vsicurl_path link) with
      | none =>
        have hstep : stepGroups o band G g = G := by simp [stepGroups, hf, ho]
        have hop : openedInfos o band (g :: rest) = openedInfos o band rest := by
          simp [openedInfos, List.filterMap_cons, hf, ho]
        rw [hstep] at hmem
        rw [hop]
        exact ih G hnd hk hmem
      | some info =>
        have hstep : stepGroups o band G g =
            addToGroup G (crsKey info) (crsShort info) (get_vsicurl_path link) := by
          simp [stepGroups, hf, ho]
        have hop : openedInfos o band (g :: rest) =
            (get_vsicurl_path link, info) :: openedInfos o band rest := by
          simp [openedInfos, List.filterMap_cons, hf, ho]
        rw [hstep] at hmem
        rw [hop]
        by_cases hkk : crsKey info = k
        · subst hkk
          rw [List.find?_cons_of_pos _ (by simp)]
          refine ⟨get_vsicurl_path link, info, rfl, ?_⟩
          have hnew : ((crsKey info, ⟨crsShort info, [get_vsicurl_path link]⟩) :
              String × GroupData) ∈
              addToGroup G (crsKey info) (crsShort info) (get_vsicurl_path link) :=
            addToGroup_mem_new G _ _ _ hk
          exact foldl_preserves_entry_name o band rest _ (crsKey info) _
            (nodupKeys_addToGroup G _ _ _ hnd) hnew gd hmem
        · rw [List.find?_cons_of_neg _ (by simp [hkk])]
          apply ih (addToGroup G (crsKey info) (crsShort info) (get_vsicurl_path link))
            (nodupKeys_addToGroup G _ _ _ hnd) ?notmem hmem
          case notmem =>
            intro hcontra
            rcases (keysOf_addToGroup_mem G (crsKey info) (crsShort info)
              (get_vsicurl_path link) k).mp hcontra with h1 | h2
            · exact hk h1
            · exact hkk h2.symm

/-! ## Claim C10: group short name comes from the first creating file -/

/-- C10: every group of the scan result carries the short name derived
from the first opened file whose CRS key created the group; later files
added to the group never change it, so the VRT filename and the display
layer name of the group are exactly those derived from that first file
and the path count. -/
theorem group_name_from_first_file (o : String → Option CrsInfo) (band : String)
    (gs : List Granule) (k : String) (gd : GroupData)
    (hmem : (k, gd) ∈ (scanGranules o band gs).files_by_crs) :
    ∃ p info, (openedInfos o band gs).find? (fun q => crsKey q.2 == k) = some (p, info) ∧
      gd.name = crsShort info ∧
      vrtFilename gd.name = vrtFilename (crsShort info) ∧
      layerName gd.name gd.paths.length = layerName (crsShort info) gd.paths.length := by
  have hfiles : (scanGranules o band gs).files_by_crs = gs.foldl (stepGroups o band) [] :=
    scanFold_files o band gs ⟨[], [], []⟩
  rw [hfiles] at hmem
  obtain ⟨p, info, hfind, hname⟩ :=
    name_from_first_creator o band gs [] k gd (by simp [keysOf]) (by simp [keysOf]) hmem
  exact ⟨p, info, hfind, hname, by rw [hname], by rw [hname]⟩

/-- Witness for C10 at the concrete oracle and granules: the single
group EPSG:32612 is named after the first file that created it. -/
theorem group_name_from_first_file_witness :
    ∃ p info, (openedInfos oracleA "B01_WTR" granulesA).find?
        (fun q => crsKey q.2 == "EPSG:32612") = some (p, info) ∧
      (GroupData.mk "UTM zone 12N"
          ["/vsicurl/https://h/a_B01_WTR.tif", "/vsicurl/https://h/b_B01_WTR.tif"]).name =
        crsShort info ∧
      vrtFilename (GroupData.mk "UTM zone 12N"
          ["/vsicurl/https://h/a_B01_WTR.tif", "/vsicurl/https://h/b_B01_WTR.tif"]).name =
        vrtFilename (crsShort info) ∧
      layerName (GroupData.mk "UTM zone 12N"
          ["/vsicurl/https://h/a_B01_WTR.tif", "/vsicurl/https://h/b_B01_WTR.tif"]).name
          (GroupData.mk "UTM zone 12N"
          ["/vsicurl/https://h/a_B01_WTR.tif", "/vsicurl/https://h/b_B01_WTR.tif"]).paths.length =
        layerName (crsShort info) (GroupData.mk "UTM zone 12N"
          ["/vsicurl/https://h/a_B01_WTR.tif", "/vsicurl/https://h/b_B01_WTR.tif"]).paths.length :=
  group_name_from_first_file oracleA "B01_WTR" granulesA "EPSG:32612"
    ⟨"UTM zone 12N", ["/vsicurl/https://h/a_B01_WTR.tif", "/vsicurl/https://h/b_B01_WTR.tif"]⟩
    (by decide)

/-! ## Build-phase machinery for claims C3 and C4 -/

theorem foldl_mergeExtent_some (rs : List Rect) (r : Rect) :
    rs.foldl mergeExtent (some r) = some (rs.foldl combineExtent r) := by
  induction rs generalizing r with
  | nil => rfl
  | cons x xs ih =>
    simp only [List.foldl_cons, mergeExtent]
    exact ih (combineExtent r x)

theorem listUnion_cons (x : Rect) (xs : List Rect) :
    listUnion (x :: xs) = some (xs.foldl combineExtent x) := by
  unfold listUnion
  simp only [List.foldl_cons, mergeExtent]
  exact foldl_mergeExtent_some xs x

theorem countP_not_add_length_filter {α : Type} (p : α → Bool) (l : List α) :
    l.countP (fun a => !(p a)) + (l.filter p).length = l.length := by
  induction l with
  | nil => simp
  | cons x xs ih =>
    by_cases hx : p x
    · simp only [List.countP_cons, List.filter_cons, hx]
      simp only [Bool.not_true, if_true]
      simp
      omega
    · simp only [List.countP_cons, List.filter_cons]
      rw [if_neg hx]
      simp only [Bool.not_eq_true] at hx
      simp [hx]
      omega

theorem buildFold_spec (env : BuildEnv) (tmp : String) (groups : List (String × GroupData))
    (acc : BuildAcc) :
    groups.foldl (buildStep env tmp) acc =
      ⟨acc.layers ++ (groups.filter (groupOK env tmp)).map
          (fun e => layerName e.2.name e.2.paths.length),
        ((groups.filter (groupOK env tmp)).map
          (fun e => env.canvasExtent (vrtPath tmp e.2.name))).foldl mergeExtent acc.extent⟩ := by
  induction groups generalizing acc with
  | nil => simp
  | cons e rest ih =>
    simp only [List.foldl_cons]
    by_cases hb : env.buildOK (vrtPath tmp e.2.name) e.2.paths
    · by_cases hv : env.valid (vrtPath tmp e.2.name)
      · have hok : groupOK env tmp e = true := by simp [groupOK, hb, hv]
        have hstep : buildStep env tmp acc e =
            ⟨acc.layers ++ [layerName e.2.name e.2.paths.length],
              mergeExtent acc.extent (env.canvasExtent (vrtPath tmp e.2.name))⟩ := by
          simp [buildStep, hb, hv]
        rw [hstep, ih]
        simp [hok, List.append_assoc]
      · have hok : groupOK env tmp e = false := by simp [groupOK, hb, hv]
        have hstep : buildStep env tmp acc e = acc := by simp [buildStep, hb, hv]
        rw [hstep, ih]
        simp [hok]
    · have hok : groupOK env tmp e = false := by simp [groupOK, hb]
      have hstep : buildStep env tmp acc e = acc := by simp [buildStep, hb]
      rw [hstep, ih]
      simp [hok]

/-! ## Claim C3: one failed group among several (corrected) -/

/-- C3 counterexample: with a single CRS group whose VRT build fails
(N = 1, N - 1 = 0 valid layers), the operation does not succeed: it
raises the zero-layers error, refuting the unconditional `still
succeeds` of the claim. -/
theorem mosaic_partial_failure_counterexample :
    ([(("EPSG:32612" : String), (⟨"UTM zone 12N", ["pa"]⟩ : GroupData))].countP
        (fun e => !(groupOK ⟨fun _ => none, fun _ _ => false, fun _ => true,
          fun _ => ⟨0, 0, 1, 1⟩⟩ "/tmp" e)) = 1) ∧
    runBuild ⟨fun _ => none, fun _ _ => false, fun _ => true, fun _ => ⟨0, 0, 1, 1⟩⟩ "/tmp"
        [("EPSG:32612", ⟨"UTM zone 12N", ["pa"]⟩)] =
      Except.error "Failed to create any mosaic layers" := by
  constructor
  · decide
  · rfl

/-- C3 amended: provided at least one group produces a valid layer,
a run with exactly one failing group (VRT build failure or layer
invalidity) still succeeds, creates exactly N - 1 layers, and its
combined extent is the union of exactly the successful groups' extents
reprojected to the canvas CRS, scaled by the fixed 5 percent margin;
and in general the build phase fails exactly when zero groups produced
a valid layer. -/
theorem mosaic_partial_failure (env : BuildEnv) (tmp : String)
    (groups : List (String × GroupData)) :
    ((groups.countP (fun e => !(groupOK env tmp e)) = 1 →
      1 ≤ (groups.filter (groupOK env tmp)).length →
      ∃ u, listUnion ((groups.filter (groupOK env tmp)).map
            (fun e => env.canvasExtent (vrtPath tmp e.2.name))) = some u ∧
        runBuild env tmp groups =
          Except.ok ((groups.filter (groupOK env tmp)).map
              (fun e => layerName e.2.name e.2.paths.length),
            some (scaleRect (21 / 20) u)) ∧
        (groups.filter (groupOK env tmp)).length = groups.length - 1)) ∧
    (runBuild env tmp groups = Except.error "Failed to create any mosaic layers" ↔
      groups.filter (groupOK env tmp) = []) := by
  have hfold := buildFold_spec env tmp groups ⟨[], none⟩
  constructor
  · intro hcount hlen
    have hlen2 : (groups.filter (groupOK env tmp)).length = groups.length - 1 := by
      have h1 := countP_not_add_length_filter (groupOK env tmp) groups
      omega
    match hfl : groups.filter (groupOK env tmp) with
    | [] => rw [hfl] at hlen; simp at hlen
    | e0 :: es =>
      refine ⟨(es.map (fun e => env.canvasExtent (vrtPath tmp e.2.name))).foldl
          combineExtent (env.canvasExtent (vrtPath tmp e0.2.name)), ?_, ?_, hfl ▸ hlen2⟩
      · rw [List.map_cons]
        exact listUnion_cons _ _
      · unfold runBuild
        rw [hfl] at hfold
        rw [hfold]
        simp only [List.nil_append, List.map_cons, List.foldl_cons]
        rw [if_neg (by simp)]
        rw [show mergeExtent none (env.canvasExtent (vrtPath tmp e0.2.name)) =
          some (env.canvasExtent (vrtPath tmp e0.2.name)) from rfl]
        rw [foldl_mergeExtent_some]
        rfl
  · constructor
    · intro herr
      by_contra hne
      match hfl : groups.filter (groupOK env tmp) with
      | [] => exact hne hfl
      | e0 :: es =>
        unfold runBuild at herr
        rw [hfl] at hfold
        rw [hfold] at herr
        simp at herr
    · intro hfl
      unfold runBuild
      rw [hfl] at hfold
      rw [hfold]
      simp

/-- Witness for C3: with three groups and exactly one build failure,
the run succeeds with two layers and the union of the two successful
extents, scaled. -/
theorem mosaic_partial_failure_witness :
    ∃ u, listUnion ((groupsC3.filter (groupOK envC3 "/tmp")).map
          (fun e => envC3.canvasExtent (vrtPath "/tmp" e.2.name))) = some u ∧
      runBuild envC3 "/tmp" groupsC3 =
        Except.ok ((groupsC3.filter (groupOK envC3 "/tmp")).map
            (fun e => layerName e.2.name e.2.paths.length),
          some (scaleRect (21 / 20) u)) ∧
      (groupsC3.filter (groupOK envC3 "/tmp")).length = groupsC3.length - 1 :=
  (mosaic_partial_failure envC3 "/tmp" groupsC3).1 (by decide) (by decide)

/-! ## Claim C4: zero grouped files aborts before building -/

/-- C4: when no file at all is successfully opened (every granule
either lacks a matching link or its matching file fails to open), the
mosaic operation fails with the no-accessible-files error and never
reaches the build phase, so no layer is created. -/
theorem no_accessible_files_error (env : BuildEnv) (tmp band : String) (gs : List Granule)
    (h : openedFiles env.openDS band gs = []) :
    displayMosaic env tmp band gs =
      Except.error "No accessible files found for selected granules" := by
  unfold displayMosaic
  have hfiles : (scanGranules env.openDS band gs).files_by_crs =
      gs.foldl (stepGroups env.openDS band) [] := scanFold_files env.openDS band gs ⟨[], [], []⟩
  have hperm : (joinPaths (scanGranules env.openDS band gs).files_by_crs).Perm
      (openedFiles env.openDS band gs) := by
    rw [hfiles]
    have h2 := joinPaths_foldl_stepGroups env.openDS band gs []
    simpa [joinPaths] using h2
  rw [h] at hperm
  have hnil : joinPaths (scanGranules env.openDS band gs).files_by_crs = [] :=
    List.Perm.eq_nil hperm
  have hsum : ((scanGranules env.openDS band gs).files_by_crs.map
      (fun e => e.2.paths.length)).sum = 0 := by
    have hlen := congrArg List.length hnil
    unfold joinPaths at hlen
    simpa [List.length_flatten, List.map_map, Function.comp] using hlen
  simp [hsum]

/-- Witness for C4: with two granules whose files never open, the
operation fails with the no-accessible-files error. -/
theorem no_accessible_files_error_witness :
    openedFiles envFail.openDS "B01_WTR" granulesA = [] ∧
    displayMosaic envFail "/tmp" "B01_WTR" granulesA =
      Except.error "No accessible files found for selected granules" :=
  ⟨by decide, no_accessible_files_error envFail "/tmp" "B01_WTR" granulesA (by decide)⟩

/-! ## Claim C5: recording of not-found and access-failed granules -/

/-- C5 evaluation at the failing input: a granule (id `GranuleOne`)
whose only matching link fails to open is recorded under BOTH
`access_failed` (by file basename) and `not_found` (by granule id),
because the source guard compares the granule id against truncated
basenames suffixed with an ellipsis, which can essentially never
match; the claim (and the spec) say the granule is recorded only under
`access failed`. -/
theorem open_failure_double_recorded :
    (scanGranules (fun _ => none) "B01_WTR"
        [⟨"GranuleOne", ["https://h/x_B01_WTR.tif"]⟩]).not_found = ["GranuleOne"] ∧
    (scanGranules (fun _ => none) "B01_WTR"
        [⟨"GranuleOne", ["https://h/x_B01_WTR.tif"]⟩]).access_failed = ["x_B01_WTR.tif"] := by
  decide

end NasaOpera
